import Mathlib

/-!
Shallow embedding of `src/store/tapir/client.cc` (the TAPIR client-side
transaction coordinator) and proofs about its Prepare/Commit/Abort logic.

Modelling conventions:
* `Reply` is the closed set of reply codes `REPLY_OK / REPLY_FAIL /
  REPLY_RETRY / REPLY_TIMEOUT`; any other code hits `NOT_IMPLEMENTED()`
  (fatal), so the closed enumeration is faithful.
* A `Promise` resolved by a shard is modelled by the pair of values the
  coordinator reads from it: `GetReply()` and `GetTimestamp().getTimestamp()`
  (the `Vote` structure).  The environment (which shard answers what) is a
  parameter of each operation.
* Network sends are recorded as a list of `Msg` values, so that "operation X
  contacts shard i" is the proposition `Msg ... i ∈ msgs`.
* `ASSERT(...)` is fatal (spec section 7: invariant violations fail loudly);
  a fatal outcome is the `.error ()` branch of `Except Unit`.
* The uninitialized local `uint64_t ts;` in `Client::Prepare` is modelled by
  an explicit parameter `tsInit` standing for whatever value the
  uninitialized memory held.
* `timeServer.GetTime()` readings and the value of `COMMIT_RETRIES`
  (defined in `client.h`, outside the sources) are parameters.
-/

namespace Tapir

/-- Reply codes `REPLY_OK`, `REPLY_FAIL`, `REPLY_RETRY`, `REPLY_TIMEOUT`. -/
inductive Reply where
  | ok
  | fail
  | retry
  | timeout
deriving DecidableEq, Repr

/-- A timestamp: pair of a physical-time value and a client identifier
(`Timestamp(t, client_id)` in the source). -/
structure Timestamp where
  timestamp : Nat
  id : Nat
deriving DecidableEq, Repr

/-- `Timestamp::getTimestamp()`. -/
def Timestamp.getTimestamp (t : Timestamp) : Nat := t.timestamp

/-- `Timestamp::setTimestamp(v)`: overwrites the physical-time component. -/
def Timestamp.setTimestamp (t : Timestamp) (v : Nat) : Timestamp :=
  { t with timestamp := v }

/-- What the coordinator reads out of one resolved Prepare `Promise`:
`p->GetReply()` and `p->GetTimestamp().getTimestamp()`. -/
structure Vote where
  reply : Reply
  proposed : Nat
deriving DecidableEq, Repr

/-- A network send performed by the coordinator, tagged with the target
shard: `bclient[shard]->Begin/Get/Put/Prepare/Commit/Abort(...)`. -/
inductive Msg where
  | beginTx (shard : Nat) (tid : Nat)
  | getReq (shard : Nat) (key : String)
  | putReq (shard : Nat) (key : String) (value : String)
  | prepareReq (shard : Nat) (ts : Nat)
  | commitReq (shard : Nat)
  | abortReq (shard : Nat)
deriving DecidableEq, Repr

/-- The shard a message is addressed to. -/
def Msg.shard : Msg → Nat
  | .beginTx s _ => s
  | .getReq s _ => s
  | .putReq s _ _ => s
  | .prepareReq s _ => s
  | .commitReq s => s
  | .abortReq s => s

/-- Coordinator state touched by the claims: the transaction id `t_id` and
the participant set `participants` (a `std::set<int>`; modelled as a
duplicate-free insertion-order list, membership being what the claims use). -/
structure ClientState where
  t_id : Nat
  participants : List Nat
deriving DecidableEq, Repr

/-- `Client::Begin()`: `t_id++; participants.clear();`. -/
def ClientBegin (s : ClientState) : ClientState :=
  { t_id := s.t_id + 1, participants := [] }

/-- The participant-registration step shared by `Client::Get` and
`Client::Put`: if shard `i` is not yet a participant, insert it and send
`Begin(t_id)` to it. -/
def touchShard (s : ClientState) (i : Nat) : ClientState × List Msg :=
  if i ∈ s.participants then (s, [])
  else ({ s with participants := s.participants ++ [i] }, [Msg.beginTx i s.t_id])

/-- `Client::Get(key, value)`. `kts` is the shard router `key_to_shard`
(defined outside the sources; spec section 4.2: a deterministic stateless
function of the key and the shard count). `promiseValue`/`promiseReply` are
what the Get promise resolves to; they are returned to the caller unchanged
and do not touch coordinator state. -/
def ClientGet (kts : String → Nat → Nat) (nshards : Nat) (s : ClientState)
    (key : String) (promiseValue : String) (promiseReply : Reply) :
    ClientState × List Msg × String × Reply :=
  let i := kts key nshards
  let reg := touchShard s i
  (reg.1, reg.2 ++ [Msg.getReq i key], promiseValue, promiseReply)

/-- `Client::Put(key, value)`: same registration rule as Get; the write is
buffered by the shard facade and the promise reply is returned. -/
def ClientPut (kts : String → Nat → Nat) (nshards : Nat) (s : ClientState)
    (key : String) (value : String) (promiseReply : Reply) :
    ClientState × List Msg × Reply :=
  let i := kts key nshards
  let reg := touchShard s i
  (reg.1, reg.2 ++ [Msg.putReq i key value], promiseReply)

/-- The Prepare fan-out: one `Prepare(timestamp)` request per participant,
in participant order. -/
def prepFanout (participants : List Nat) (t : Timestamp) : List Msg :=
  participants.map (fun p => Msg.prepareReq p t.getTimestamp)

/-- The vote-reduction loop of `Client::Prepare` over the resolved promises.
`status` starts at `REPLY_OK`; `ts` is the local accumulator `uint64_t ts;`
(uninitialized in the source, so its starting value is whatever the caller
passes).  Per iteration the source declares a loop-local
`uint64_t proposed = p->GetTimestamp().getTimestamp();` (shadowing the outer
`proposed`) and switches on `p->GetReply()`: OK continues, FAIL returns
immediately (modelled as `none`), RETRY sets `status = REPLY_RETRY` and
updates `ts` with `if (proposed > ts) ts = proposed;`, TIMEOUT sets
`status = REPLY_RETRY`. -/
def voteFold : List Vote → Reply → Nat → Option (Reply × Nat)
  | [], status, ts => some (status, ts)
  | v :: rest, status, ts =>
    match v.reply with
    | .ok => voteFold rest status ts
    | .fail => none
    | .retry => voteFold rest .retry (if v.proposed > ts then v.proposed else ts)
    | .timeout => voteFold rest .retry ts

/-- Result of one `Client::Prepare` call: the returned status, the value of
the by-reference `timestamp` argument after the call, and the requests sent. -/
structure PrepOut where
  status : Reply
  timestamp : Timestamp
  msgs : List Msg
deriving DecidableEq, Repr

/-- `Client::Prepare(timestamp)`.  `votes` are the resolved promises in
participant order, `now` is what `timeServer.GetTime()` returns in the
RETRY branch, `tsInit` the initial content of the uninitialized `ts`.
Faithful detail: the outer `uint64_t proposed = 0;` of line 150 is never
reassigned (the loop declares a shadowing local of the same name), so the
RETRY branch computes the new timestamp from `now` and `0`, and the
accumulator `ts` is dead after the loop. `ASSERT(participants.size() > 0)`
fires — fatally, before any request is sent — when the participant set is
empty. -/
def ClientPrepare (s : ClientState) (votes : List Vote) (timestamp : Timestamp)
    (now : Nat) (tsInit : Nat) : Except Unit (ClientState × PrepOut) :=
  if 0 < s.participants.length then
    let msgs := prepFanout s.participants timestamp
    let proposed : Nat := 0
    match voteFold votes .ok tsInit with
    | none => .ok (s, ⟨.fail, timestamp, msgs⟩)
    | some (status, _ts) =>
      if status = .retry then
        let newTs := if now > proposed then now else proposed
        .ok (s, ⟨.retry, timestamp.setTimestamp newTs, msgs⟩)
      else
        .ok (s, ⟨status, timestamp, msgs⟩)
  else
    .error ()

/-- The `for (retries = 0; retries < COMMIT_RETRIES; retries++)` loop of
`Client::Commit`: call `prep` (one Prepare round, indexed by attempt
number), stop unless the status is RETRY, otherwise loop with the updated
timestamp.  Returns the last round's `(status, timestamp)` (`none` when the
loop body never ran, i.e. zero fuel, in which case the source would read an
uninitialized `status`) together with the number of Prepare calls made. -/
def commitLoop (prep : Nat → Timestamp → Except Unit (Reply × Timestamp)) :
    Nat → Nat → Timestamp → Except Unit (Option (Reply × Timestamp) × Nat)
  | _, 0, _ => .ok (none, 0)
  | attempt, fuel + 1, timestamp =>
    match prep attempt timestamp with
    | .error e => .error e
    | .ok (status, ts') =>
      if status = .retry then
        match commitLoop prep (attempt + 1) fuel ts' with
        | .error e => .error e
        | .ok (res, n) => .ok (some (res.getD (status, ts')), n + 1)
      else
        .ok (some (status, ts'), 1)

/-- One Prepare round as seen by the Commit loop: round `k` resolves to the
votes `rounds k`, with clock reading `nows k` and uninitialized-memory
content `tsInits k`. -/
def prepRound (s : ClientState) (rounds : Nat → List Vote) (nows : Nat → Nat)
    (tsInits : Nat → Nat) (k : Nat) (timestamp : Timestamp) :
    Except Unit (Reply × Timestamp) :=
  match ClientPrepare s (rounds k) timestamp (nows k) (tsInits k) with
  | .error e => .error e
  | .ok (_, out) => .ok (out.status, out.timestamp)

/-- The Abort fan-out: one Abort request per participant. -/
def abortFanout (participants : List Nat) : List Msg :=
  participants.map Msg.abortReq

/-- `Client::Abort()`: the first loop creates a promise per participant and
sends it Abort; the second loop calls `GetReply()` on every promise —
blocking until that shard's reply or the promise deadline — and releases
it.  `reply` is what each shard's promise resolves to; the second component
is the list of replies actually awaited, in order. -/
def ClientAbort (s : ClientState) (reply : Nat → Reply) : List Msg × List Reply :=
  let promises := s.participants.map (fun p => (p, reply p))
  (abortFanout s.participants, promises.map (fun pr => pr.2))

/-- Result of `Client::Commit`: the boolean outcome, the commit- or
abort-phase requests sent after the retry loop, and the number of Prepare
calls made. -/
structure CommitOut where
  success : Bool
  msgs : List Msg
  attempts : Nat
deriving DecidableEq, Repr

/-- `Client::Commit()`: stamp a fresh timestamp `Timestamp(now0, client_id)`,
run the bounded retry loop (`bound` plays `COMMIT_RETRIES`), then on OK send
`Commit` to every participant (fire-and-forget) and return `true`, otherwise
call `Abort()` and return `false`.  `statusInit` is the value the
uninitialized `int status;` would be read at if the loop body never ran
(only possible when `bound = 0`). -/
def ClientCommit (s : ClientState) (rounds : Nat → List Vote) (now0 : Nat)
    (nows : Nat → Nat) (tsInits : Nat → Nat) (client_id : Nat) (bound : Nat)
    (statusInit : Reply) : Except Unit CommitOut :=
  match commitLoop (prepRound s rounds nows tsInits) 0 bound ⟨now0, client_id⟩ with
  | .error e => .error e
  | .ok (res, n) =>
    let status := (res.map Prod.fst).getD statusInit
    if status = .ok then
      .ok ⟨true, s.participants.map Msg.commitReq, n⟩
    else
      .ok ⟨false, abortFanout s.participants, n⟩

/-- One buffered operation of the transaction body. -/
inductive Op where
  | getOp (key : String)
  | putOp (key : String) (value : String)
deriving DecidableEq, Repr

/-- The key an operation touches. -/
def Op.key : Op → String
  | .getOp k => k
  | .putOp k _ => k

/-- Run a sequence of Get/Put operations, threading coordinator state and
collecting every request sent.  `env n` resolves the promise of the `n`-th
operation (its value and reply, which do not affect coordinator state). -/
def runOps (kts : String → Nat → Nat) (nshards : Nat) :
    (Nat → String × Reply) → ClientState → List Op → ClientState × List Msg
  | _, s, [] => (s, [])
  | env, s, .getOp k :: rest =>
    let r := ClientGet kts nshards s k (env 0).1 (env 0).2
    let tail := runOps kts nshards (fun n => env (n + 1)) r.1 rest
    (tail.1, r.2.1 ++ tail.2)
  | env, s, .putOp k v :: rest =>
    let r := ClientPut kts nshards s k v (env 0).2
    let tail := runOps kts nshards (fun n => env (n + 1)) r.1 rest
    (tail.1, r.2.1 ++ tail.2)

/-! ### Lemmas about the vote-reduction loop -/

theorem voteFold_eq_none_iff (votes : List Vote) (st : Reply) (ts : Nat) :
    voteFold votes st ts = none ↔ ∃ v ∈ votes, v.reply = .fail := by
  induction votes generalizing st ts with
  | nil => simp [voteFold]
  | cons v rest ih =>
    cases hv : v.reply <;> simp [voteFold, hv, ih]

theorem voteFold_some_status (votes : List Vote) (st0 st : Reply) (ts ts' : Nat)
    (h : voteFold votes st0 ts = some (st, ts')) :
    st = .ok ↔ st0 = .ok ∧ ∀ v ∈ votes, v.reply = .ok := by
  induction votes generalizing st0 ts with
  | nil =>
    simp [voteFold] at h
    simp [h.1]
  | cons v rest ih =>
    cases hv : v.reply <;> simp [voteFold, hv] at h <;> simp [hv, ih _ _ h]

theorem voteFold_some_cases (votes : List Vote) (st0 st : Reply) (ts ts' : Nat)
    (h : voteFold votes st0 ts = some (st, ts')) :
    st = st0 ∨ st = .retry := by
  induction votes generalizing st0 ts with
  | nil =>
    simp [voteFold] at h
    exact Or.inl h.1.symm
  | cons v rest ih =>
    cases hv : v.reply <;> simp [voteFold, hv] at h
    · exact ih _ _ h
    · exact Or.inr ((ih _ _ h).elim id id)
    · exact Or.inr ((ih _ _ h).elim id id)

/-! ### Lemmas about one Prepare call -/

theorem prepare_empty (s : ClientState) (votes : List Vote) (t : Timestamp)
    (now ti : Nat) (h : s.participants = []) :
    ClientPrepare s votes t now ti = .error () := by
  simp [ClientPrepare, h]

theorem prepare_fail_result (s : ClientState) (votes : List Vote) (t : Timestamp)
    (now ti : Nat) (hne : s.participants ≠ [])
    (hf : ∃ v ∈ votes, v.reply = .fail) :
    ClientPrepare s votes t now ti = .ok (s, ⟨.fail, t, prepFanout s.participants t⟩) := by
  have h : voteFold votes .ok ti = none := (voteFold_eq_none_iff votes .ok ti).mpr hf
  simp [ClientPrepare, h, List.length_pos.mpr hne]

theorem prepare_all_ok (s : ClientState) (votes : List Vote) (t : Timestamp)
    (now ti : Nat) (hne : s.participants ≠ [])
    (hok : ∀ v ∈ votes, v.reply = .ok) :
    ClientPrepare s votes t now ti = .ok (s, ⟨.ok, t, prepFanout s.participants t⟩) := by
  have hnone : voteFold votes .ok ti ≠ none := by
    rw [Ne, voteFold_eq_none_iff]
    rintro ⟨v, hv, hfv⟩
    have := hok v hv
    rw [this] at hfv
    exact Reply.noConfusion hfv
  obtain ⟨⟨st, ts'⟩, h⟩ := Option.ne_none_iff_exists'.mp hnone
  have hst : st = .ok := (voteFold_some_status votes .ok st ti ts' h).mpr ⟨rfl, hok⟩
  subst hst
  simp [ClientPrepare, h, List.length_pos.mpr hne]

theorem prepare_retry_result (s : ClientState) (votes : List Vote) (t : Timestamp)
    (now ti : Nat) (hne : s.participants ≠ [])
    (hnf : ∀ v ∈ votes, v.reply ≠ .fail)
    (hnok : ∃ v ∈ votes, v.reply ≠ .ok) :
    ClientPrepare s votes t now ti =
      .ok (s, ⟨.retry, t.setTimestamp (if 0 < now then now else 0),
        prepFanout s.participants t⟩) := by
  have hnone : voteFold votes .ok ti ≠ none := by
    rw [Ne, voteFold_eq_none_iff]
    rintro ⟨v, hv, hfv⟩
    exact hnf v hv hfv
  obtain ⟨⟨st, ts'⟩, h⟩ := Option.ne_none_iff_exists'.mp hnone
  have hst : st = .retry := by
    rcases voteFold_some_cases votes .ok st ti ts' h with h1 | h1
    · exfalso
      obtain ⟨v, hv, hvok⟩ := hnok
      exact hvok (((voteFold_some_status votes .ok st ti ts' h).mp h1).2 v hv)
    · exact h1
  subst hst
  simp [ClientPrepare, h, List.length_pos.mpr hne, Nat.lt_iff_add_one_le]

theorem prepare_ok_imp_ne_nil (s : ClientState) (votes : List Vote) (t : Timestamp)
    (now ti : Nat) (r : ClientState × PrepOut)
    (h : ClientPrepare s votes t now ti = .ok r) : s.participants ≠ [] := by
  intro hnil
  rw [prepare_empty s votes t now ti hnil] at h
  exact Except.noConfusion h

theorem prepare_total (s : ClientState) (votes : List Vote) (t : Timestamp)
    (now ti : Nat) (hne : s.participants ≠ []) :
    ∃ out : PrepOut, ClientPrepare s votes t now ti = .ok (s, out) := by
  by_cases hf : ∃ v ∈ votes, v.reply = .fail
  · exact ⟨_, prepare_fail_result s votes t now ti hne hf⟩
  · by_cases hok : ∀ v ∈ votes, v.reply = .ok
    · exact ⟨_, prepare_all_ok s votes t now ti hne hok⟩
    · push_neg at hf hok
      exact ⟨_, prepare_retry_result s votes t now ti hne hf hok⟩

theorem prepare_shape (s : ClientState) (votes : List Vote) (t : Timestamp)
    (now ti : Nat) (s' : ClientState) (out : PrepOut)
    (h : ClientPrepare s votes t now ti = .ok (s', out)) :
    s' = s ∧ out.msgs = prepFanout s.participants t := by
  have hne := prepare_ok_imp_ne_nil s votes t now ti _ h
  by_cases hf : ∃ v ∈ votes, v.reply = .fail
  · rw [prepare_fail_result s votes t now ti hne hf] at h
    obtain ⟨h1, h2⟩ := Prod.mk.injEq .. ▸ Except.ok.inj h
    exact ⟨h1.symm, by rw [← h2]⟩
  · by_cases hok : ∀ v ∈ votes, v.reply = .ok
    · rw [prepare_all_ok s votes t now ti hne hok] at h
      obtain ⟨h1, h2⟩ := Prod.mk.injEq .. ▸ Except.ok.inj h
      exact ⟨h1.symm, by rw [← h2]⟩
    · push_neg at hf hok
      rw [prepare_retry_result s votes t now ti hne hf hok] at h
      obtain ⟨h1, h2⟩ := Prod.mk.injEq .. ▸ Except.ok.inj h
      exact ⟨h1.symm, by rw [← h2]⟩

theorem prepare_status_ok_iff (s : ClientState) (votes : List Vote) (t : Timestamp)
    (now ti : Nat) (s' : ClientState) (out : PrepOut)
    (h : ClientPrepare s votes t now ti = .ok (s', out)) :
    out.status = .ok ↔ ∀ v ∈ votes, v.reply = .ok := by
  have hne := prepare_ok_imp_ne_nil s votes t now ti _ h
  by_cases hf : ∃ v ∈ votes, v.reply = .fail
  · rw [prepare_fail_result s votes t now ti hne hf] at h
    obtain ⟨-, h2⟩ := Prod.mk.injEq .. ▸ Except.ok.inj h
    constructor
    · intro hst
      rw [← h2] at hst
      exact absurd hst (by simp)
    · intro hall
      obtain ⟨v, hv, hfv⟩ := hf
      have := hall v hv
      rw [this] at hfv
      exact absurd hfv (by simp)
  · by_cases hok : ∀ v ∈ votes, v.reply = .ok
    · rw [prepare_all_ok s votes t now ti hne hok] at h
      obtain ⟨-, h2⟩ := Prod.mk.injEq .. ▸ Except.ok.inj h
      rw [← h2]
      simpa using hok
    · push_neg at hf hok
      rw [prepare_retry_result s votes t now ti hne hf hok] at h
      obtain ⟨-, h2⟩ := Prod.mk.injEq .. ▸ Except.ok.inj h
      constructor
      · intro hst
        rw [← h2] at hst
        exact absurd hst (by simp)
      · intro hall
        obtain ⟨v, hv, hvok⟩ := hok
        exact absurd (hall v hv) hvok

/-! ### Lemmas about the Commit retry loop -/

theorem commitLoop_counts (prep : Nat → Timestamp → Except Unit (Reply × Timestamp)) :
    ∀ (fuel a : Nat) (t : Timestamp) (res : Option (Reply × Timestamp)) (n : Nat),
      commitLoop prep a fuel t = .ok (res, n) → n ≤ fuel ∧ (res = none ↔ n = 0) := by
  intro fuel
  induction fuel with
  | zero =>
    intro a t res n h
    simp [commitLoop] at h
    simp [h.1, h.2]
  | succ fuel ih =>
    intro a t res n h
    cases hp : prep a t with
    | error e =>
      have hstep : commitLoop prep a (fuel + 1) t = .error e := by simp [commitLoop, hp]
      rw [hstep] at h
      exact Except.noConfusion h
    | ok r =>
      obtain ⟨status, ts'⟩ := r
      by_cases hst : status = .retry
      · subst hst
        cases hc : commitLoop prep (a + 1) fuel ts' with
        | error e =>
          have hstep : commitLoop prep a (fuel + 1) t = .error e := by
            simp [commitLoop, hp, hc]
          rw [hstep] at h
          exact Except.noConfusion h
        | ok r' =>
          obtain ⟨res', n'⟩ := r'
          have hstep : commitLoop prep a (fuel + 1) t =
              .ok (some (res'.getD (.retry, ts')), n' + 1) := by
            simp [commitLoop, hp, hc]
          rw [hstep] at h
          obtain ⟨h1, h2⟩ := Prod.mk.injEq .. ▸ Except.ok.inj h
          obtain ⟨hle, -⟩ := ih (a + 1) ts' res' n' hc
          refine ⟨by omega, ?_⟩
          rw [← h1, ← h2]
          simp
      · have hstep : commitLoop prep a (fuel + 1) t = .ok (some (status, ts'), 1) := by
          simp [commitLoop, hp, hst]
        rw [hstep] at h
        obtain ⟨h1, h2⟩ := Prod.mk.injEq .. ▸ Except.ok.inj h
        refine ⟨by omega, ?_⟩
        rw [← h1, ← h2]
        simp

theorem commitLoop_last (prep : Nat → Timestamp → Except Unit (Reply × Timestamp)) :
    ∀ (fuel a : Nat) (t : Timestamp) (res : Option (Reply × Timestamp)) (n : Nat),
      0 < fuel → commitLoop prep a fuel t = .ok (res, n) →
      ∃ st ts' tIn, res = some (st, ts') ∧ prep (a + (n - 1)) tIn = .ok (st, ts') ∧ 1 ≤ n := by
  intro fuel
  induction fuel with
  | zero => intro a t res n hpos; omega
  | succ fuel ih =>
    intro a t res n _ h
    cases hp : prep a t with
    | error e =>
      have hstep : commitLoop prep a (fuel + 1) t = .error e := by simp [commitLoop, hp]
      rw [hstep] at h
      exact Except.noConfusion h
    | ok r =>
      obtain ⟨status, ts1⟩ := r
      by_cases hst : status = .retry
      · subst hst
        cases hc : commitLoop prep (a + 1) fuel ts1 with
        | error e =>
          have hstep : commitLoop prep a (fuel + 1) t = .error e := by
            simp [commitLoop, hp, hc]
          rw [hstep] at h
          exact Except.noConfusion h
        | ok r' =>
          obtain ⟨res', n'⟩ := r'
          have hstep : commitLoop prep a (fuel + 1) t =
              .ok (some (res'.getD (.retry, ts1)), n' + 1) := by
            simp [commitLoop, hp, hc]
          rw [hstep] at h
          obtain ⟨h1, h2⟩ := Prod.mk.injEq .. ▸ Except.ok.inj h
          obtain ⟨hle', hiff⟩ := commitLoop_counts prep fuel (a + 1) ts1 res' n' hc
          rcases Nat.eq_zero_or_pos fuel with hf | hf
          · have hn' : n' = 0 := by omega
            have hres' : res' = none := hiff.mpr hn'
            refine ⟨.retry, ts1, t, ?_, ?_, by omega⟩
            · rw [← h1, hres']
              simp
            · have ha : a + (n - 1) = a := by omega
              rw [ha]
              exact hp
          · obtain ⟨st, ts', tIn, hres', hprep, hn1⟩ := ih (a + 1) ts1 res' n' hf hc
            refine ⟨st, ts', tIn, ?_, ?_, by omega⟩
            · rw [← h1, hres']
              simp
            · have ha : a + (n - 1) = a + 1 + (n' - 1) := by omega
              rw [ha]
              exact hprep
      · have hstep : commitLoop prep a (fuel + 1) t = .ok (some (status, ts1), 1) := by
          simp [commitLoop, hp, hst]
        rw [hstep] at h
        obtain ⟨h1, h2⟩ := Prod.mk.injEq .. ▸ Except.ok.inj h
        refine ⟨status, ts1, t, h1.symm, ?_, by omega⟩
        have ha : a + (n - 1) = a := by omega
        rw [ha]
        exact hp

theorem commitLoop_all_retry (prep : Nat → Timestamp → Except Unit (Reply × Timestamp))
    (h : ∀ k t, ∃ ts', prep k t = .ok (.retry, ts')) :
    ∀ (fuel a : Nat) (t : Timestamp), 0 < fuel →
      ∃ ts', commitLoop prep a fuel t = .ok (some (.retry, ts'), fuel) := by
  intro fuel
  induction fuel with
  | zero => intro a t hpos; omega
  | succ fuel ih =>
    intro a t _
    obtain ⟨ts1, hp⟩ := h a t
    rcases Nat.eq_zero_or_pos fuel with hf | hf
    · subst hf
      exact ⟨ts1, by simp [commitLoop, hp]⟩
    · obtain ⟨ts', hc⟩ := ih (a + 1) ts1 hf
      exact ⟨ts', by simp [commitLoop, hp, hc]⟩

theorem commitLoop_reaches_fail (prep : Nat → Timestamp → Except Unit (Reply × Timestamp)) :
    ∀ (k a fuel : Nat) (t : Timestamp), k < fuel →
      (∀ j t', j < k → ∃ ts', prep (a + j) t' = .ok (.retry, ts')) →
      (∀ t', ∃ ts', prep (a + k) t' = .ok (.fail, ts')) →
      ∃ ts', commitLoop prep a fuel t = .ok (some (.fail, ts'), k + 1) := by
  intro k
  induction k with
  | zero =>
    intro a fuel t hk _ hfail
    obtain ⟨f, rfl⟩ : ∃ f, fuel = f + 1 := ⟨fuel - 1, by omega⟩
    obtain ⟨ts', hp⟩ := hfail t
    rw [Nat.add_zero] at hp
    exact ⟨ts', by simp [commitLoop, hp]⟩
  | succ k ih =>
    intro a fuel t hk hretry hfail
    obtain ⟨f, rfl⟩ : ∃ f, fuel = f + 1 := ⟨fuel - 1, by omega⟩
    obtain ⟨ts1, hp⟩ := hretry 0 t (by omega)
    rw [Nat.add_zero] at hp
    obtain ⟨ts', hc⟩ := ih (a + 1) f ts1 (by omega)
      (fun j t' hj => by
        have hr := hretry (j + 1) t' (by omega)
        rwa [show a + (j + 1) = a + 1 + j by omega] at hr)
      (fun t' => by
        have hr := hfail t'
        rwa [show a + (k + 1) = a + 1 + k by omega] at hr)
    exact ⟨ts', by simp [commitLoop, hp, hc]⟩

theorem commitLoop_total (prep : Nat → Timestamp → Except Unit (Reply × Timestamp))
    (h : ∀ k t, ∃ r, prep k t = .ok r) :
    ∀ (fuel a : Nat) (t : Timestamp), ∃ out, commitLoop prep a fuel t = .ok out := by
  intro fuel
  induction fuel with
  | zero => intro a t; exact ⟨(none, 0), by simp [commitLoop]⟩
  | succ fuel ih =>
    intro a t
    obtain ⟨⟨st, ts1⟩, hp⟩ := h a t
    by_cases hst : st = .retry
    · subst hst
      obtain ⟨⟨res', n'⟩, hc⟩ := ih (a + 1) ts1
      exact ⟨(some (res'.getD (.retry, ts1)), n' + 1), by simp [commitLoop, hp, hc]⟩
    · exact ⟨(some (st, ts1), 1), by simp [commitLoop, hp, hst]⟩

/-! ### Lemmas about one Prepare round as seen by the Commit loop -/

theorem prepRound_all_ok (s : ClientState) (rounds : Nat → List Vote)
    (nows tsInits : Nat → Nat) (k : Nat) (t : Timestamp)
    (hne : s.participants ≠ []) (hok : ∀ v ∈ rounds k, v.reply = .ok) :
    prepRound s rounds nows tsInits k t = .ok (.ok, t) := by
  simp [prepRound, prepare_all_ok s (rounds k) t (nows k) (tsInits k) hne hok]

theorem prepRound_fail (s : ClientState) (rounds : Nat → List Vote)
    (nows tsInits : Nat → Nat) (k : Nat) (t : Timestamp)
    (hne : s.participants ≠ []) (hf : ∃ v ∈ rounds k, v.reply = .fail) :
    prepRound s rounds nows tsInits k t = .ok (.fail, t) := by
  simp [prepRound, prepare_fail_result s (rounds k) t (nows k) (tsInits k) hne hf]

theorem prepRound_retry (s : ClientState) (rounds : Nat → List Vote)
    (nows tsInits : Nat → Nat) (k : Nat) (t : Timestamp)
    (hne : s.participants ≠ []) (hnf : ∀ v ∈ rounds k, v.reply ≠ .fail)
    (hnok : ∃ v ∈ rounds k, v.reply ≠ .ok) :
    prepRound s rounds nows tsInits k t =
      .ok (.retry, t.setTimestamp (if 0 < nows k then nows k else 0)) := by
  simp [prepRound, prepare_retry_result s (rounds k) t (nows k) (tsInits k) hne hnf hnok]

theorem prepRound_total (s : ClientState) (rounds : Nat → List Vote)
    (nows tsInits : Nat → Nat) (hne : s.participants ≠ []) (k : Nat) (t : Timestamp) :
    ∃ r, prepRound s rounds nows tsInits k t = .ok r := by
  obtain ⟨out, hout⟩ := prepare_total s (rounds k) t (nows k) (tsInits k) hne
  exact ⟨(out.status, out.timestamp), by simp [prepRound, hout]⟩

theorem prepRound_status_ok_iff (s : ClientState) (rounds : Nat → List Vote)
    (nows tsInits : Nat → Nat) (k : Nat) (t : Timestamp) (st : Reply) (ts' : Timestamp)
    (h : prepRound s rounds nows tsInits k t = .ok (st, ts')) :
    st = .ok ↔ ∀ v ∈ rounds k, v.reply = .ok := by
  cases hcp : ClientPrepare s (rounds k) t (nows k) (tsInits k) with
  | error e =>
    rw [prepRound, hcp] at h
    exact Except.noConfusion h
  | ok r =>
    obtain ⟨s', out⟩ := r
    rw [prepRound, hcp] at h
    obtain ⟨h1, -⟩ := Prod.mk.injEq .. ▸ Except.ok.inj h
    rw [← h1]
    exact prepare_status_ok_iff s (rounds k) t (nows k) (tsInits k) s' out hcp

theorem prepRound_empty (s : ClientState) (rounds : Nat → List Vote)
    (nows tsInits : Nat → Nat) (k : Nat) (t : Timestamp)
    (h : s.participants = []) :
    prepRound s rounds nows tsInits k t = .error () := by
  simp [prepRound, prepare_empty s (rounds k) t (nows k) (tsInits k) h]

/-! ### Lemmas about Commit -/

theorem clientCommit_of_loop_ok (s : ClientState) (rounds : Nat → List Vote)
    (now0 : Nat) (nows tsInits : Nat → Nat) (cid bound : Nat) (si : Reply)
    (ts' : Timestamp) (n : Nat)
    (hc : commitLoop (prepRound s rounds nows tsInits) 0 bound ⟨now0, cid⟩ =
      .ok (some (.ok, ts'), n)) :
    ClientCommit s rounds now0 nows tsInits cid bound si =
      .ok ⟨true, s.participants.map Msg.commitReq, n⟩ := by
  simp [ClientCommit, hc]

theorem clientCommit_of_loop_not_ok (s : ClientState) (rounds : Nat → List Vote)
    (now0 : Nat) (nows tsInits : Nat → Nat) (cid bound : Nat) (si st : Reply)
    (ts' : Timestamp) (n : Nat) (hst : st ≠ .ok)
    (hc : commitLoop (prepRound s rounds nows tsInits) 0 bound ⟨now0, cid⟩ =
      .ok (some (st, ts'), n)) :
    ClientCommit s rounds now0 nows tsInits cid bound si =
      .ok ⟨false, abortFanout s.participants, n⟩ := by
  simp [ClientCommit, hc, hst]

theorem clientCommit_of_loop_error (s : ClientState) (rounds : Nat → List Vote)
    (now0 : Nat) (nows tsInits : Nat → Nat) (cid bound : Nat) (si : Reply)
    (e : Unit)
    (hc : commitLoop (prepRound s rounds nows tsInits) 0 bound ⟨now0, cid⟩ = .error e) :
    ClientCommit s rounds now0 nows tsInits cid bound si = .error e := by
  simp [ClientCommit, hc]

theorem clientCommit_ok_elim (s : ClientState) (rounds : Nat → List Vote)
    (now0 : Nat) (nows tsInits : Nat → Nat) (cid bound : Nat) (si : Reply)
    (out : CommitOut)
    (h : ClientCommit s rounds now0 nows tsInits cid bound si = .ok out)
    (hb : 0 < bound) :
    ∃ st ts' tIn, out.attempts ≤ bound ∧ 1 ≤ out.attempts ∧
      prepRound s rounds nows tsInits (out.attempts - 1) tIn = .ok (st, ts') ∧
      (out.success = true ↔ st = .ok) := by
  cases hc : commitLoop (prepRound s rounds nows tsInits) 0 bound ⟨now0, cid⟩ with
  | error e =>
    rw [clientCommit_of_loop_error s rounds now0 nows tsInits cid bound si e hc] at h
    exact Except.noConfusion h
  | ok r =>
    obtain ⟨res, n⟩ := r
    obtain ⟨hle, -⟩ := commitLoop_counts _ bound 0 _ res n hc
    obtain ⟨st, ts', tIn, hres, hprep, hn1⟩ := commitLoop_last _ bound 0 _ res n hb hc
    subst hres
    rw [Nat.zero_add] at hprep
    by_cases hst : st = .ok
    · subst hst
      rw [clientCommit_of_loop_ok s rounds now0 nows tsInits cid bound si ts' n hc] at h
      obtain rfl : (⟨true, s.participants.map Msg.commitReq, n⟩ : CommitOut) = out :=
        Except.ok.inj h
      exact ⟨.ok, ts', tIn, hle, hn1, hprep, by simp⟩
    · rw [clientCommit_of_loop_not_ok s rounds now0 nows tsInits cid bound si st ts' n
        hst hc] at h
      obtain rfl : (⟨false, abortFanout s.participants, n⟩ : CommitOut) = out :=
        Except.ok.inj h
      exact ⟨st, ts', tIn, hle, hn1, hprep, by simp [hst]⟩

/-! ### Lemmas about participant bookkeeping -/

theorem touchShard_mem (s : ClientState) (i j : Nat) :
    j ∈ (touchShard s i).1.participants ↔ j ∈ s.participants ∨ j = i := by
  by_cases h : i ∈ s.participants
  · rw [touchShard, if_pos h]
    constructor
    · exact Or.inl
    · rintro (hj | rfl)
      · exact hj
      · exact h
  · rw [touchShard, if_neg h]
    simp

theorem runOps_mem_participants (kts : String → Nat → Nat) (nshards : Nat) :
    ∀ (ops : List Op) (env : Nat → String × Reply) (s : ClientState) (i : Nat),
      i ∈ (runOps kts nshards env s ops).1.participants ↔
        i ∈ s.participants ∨ ∃ op ∈ ops, kts op.key nshards = i := by
  intro ops
  induction ops with
  | nil => intro env s i; simp [runOps]
  | cons op rest ih =>
    intro env s i
    cases op with
    | getOp k =>
      rw [runOps]
      simp only [Op.key, List.mem_cons]
      rw [ih]
      have hg : (ClientGet kts nshards s k (env 0).1 (env 0).2).1 =
          (touchShard s (kts k nshards)).1 := rfl
      rw [hg, touchShard_mem]
      constructor
      · rintro ((hs | rfl) | ⟨op, hop, hk⟩)
        · exact Or.inl hs
        · exact Or.inr ⟨.getOp k, Or.inl rfl, rfl⟩
        · exact Or.inr ⟨op, Or.inr hop, hk⟩
      · rintro (hs | ⟨op, (rfl | hop), hk⟩)
        · exact Or.inl (Or.inl hs)
        · exact Or.inl (Or.inr hk.symm)
        · exact Or.inr ⟨op, hop, hk⟩
    | putOp k v =>
      rw [runOps]
      simp only [Op.key, List.mem_cons]
      rw [ih]
      have hg : (ClientPut kts nshards s k v (env 0).2).1 =
          (touchShard s (kts k nshards)).1 := rfl
      rw [hg, touchShard_mem]
      constructor
      · rintro ((hs | rfl) | ⟨op, hop, hk⟩)
        · exact Or.inl hs
        · exact Or.inr ⟨.putOp k v, Or.inl rfl, rfl⟩
        · exact Or.inr ⟨op, Or.inr hop, hk⟩
      · rintro (hs | ⟨op, (rfl | hop), hk⟩)
        · exact Or.inl (Or.inl hs)
        · exact Or.inl (Or.inr hk.symm)
        · exact Or.inr ⟨op, hop, hk⟩

/-! ### Fan-out targeting and totality lemmas -/

theorem prepFanout_shards (ps : List Nat) (t : Timestamp) :
    ∀ m ∈ prepFanout ps t, m.shard ∈ ps := by
  intro m hm
  simp only [prepFanout, List.mem_map] at hm
  obtain ⟨p, hp, rfl⟩ := hm
  simpa [Msg.shard] using hp

theorem commitFanout_shards (ps : List Nat) :
    ∀ m ∈ ps.map Msg.commitReq, m.shard ∈ ps := by
  intro m hm
  simp only [List.mem_map] at hm
  obtain ⟨p, hp, rfl⟩ := hm
  simpa [Msg.shard] using hp

theorem abortFanout_shards (ps : List Nat) :
    ∀ m ∈ abortFanout ps, m.shard ∈ ps := by
  intro m hm
  simp only [abortFanout, List.mem_map] at hm
  obtain ⟨p, hp, rfl⟩ := hm
  simpa [Msg.shard] using hp

theorem clientCommit_msgs (s : ClientState) (rounds : Nat → List Vote)
    (now0 : Nat) (nows tsInits : Nat → Nat) (cid bound : Nat) (si : Reply)
    (out : CommitOut)
    (h : ClientCommit s rounds now0 nows tsInits cid bound si = .ok out) :
    out.msgs = s.participants.map Msg.commitReq ∨
      out.msgs = abortFanout s.participants := by
  cases hc : commitLoop (prepRound s rounds nows tsInits) 0 bound ⟨now0, cid⟩ with
  | error e =>
    rw [clientCommit_of_loop_error s rounds now0 nows tsInits cid bound si e hc] at h
    exact Except.noConfusion h
  | ok r =>
    obtain ⟨res, n⟩ := r
    by_cases hok : (res.map Prod.fst).getD si = .ok
    · have hstep : ClientCommit s rounds now0 nows tsInits cid bound si =
          .ok ⟨true, s.participants.map Msg.commitReq, n⟩ := by
        simp [ClientCommit, hc, hok]
      rw [hstep] at h
      obtain rfl := Except.ok.inj h
      exact Or.inl rfl
    · have hstep : ClientCommit s rounds now0 nows tsInits cid bound si =
          .ok ⟨false, abortFanout s.participants, n⟩ := by
        simp [ClientCommit, hc, hok]
      rw [hstep] at h
      obtain rfl := Except.ok.inj h
      exact Or.inr rfl

theorem clientCommit_total (s : ClientState) (rounds : Nat → List Vote)
    (now0 : Nat) (nows tsInits : Nat → Nat) (cid bound : Nat) (si : Reply)
    (hne : s.participants ≠ []) :
    ∃ out, ClientCommit s rounds now0 nows tsInits cid bound si = .ok out := by
  obtain ⟨⟨res, n⟩, hc⟩ := commitLoop_total (prepRound s rounds nows tsInits)
    (fun k t => prepRound_total s rounds nows tsInits hne k t) bound 0 ⟨now0, cid⟩
  by_cases hok : (res.map Prod.fst).getD si = .ok
  · exact ⟨⟨true, s.participants.map Msg.commitReq, n⟩, by simp [ClientCommit, hc, hok]⟩
  · exact ⟨⟨false, abortFanout s.participants, n⟩, by simp [ClientCommit, hc, hok]⟩

/-! ### Claim theorems -/

/-- C1: the spec requires the RETRY candidate timestamp to be
`max(clock, max proposed timestamp over the RETRY votes)` — at Scenario C
(RETRY proposing 100 and 50, clock reading 80, Prepare called at
timestamp 60) the candidate should be 100.  The code instead returns 80:
the loop-local `proposed` shadows the outer `proposed = 0`, and the
uninitialized accumulator `ts` is dead after the loop, so the candidate is
computed from the clock and 0 alone, for every possible content `tsInit`
of the uninitialized memory. -/
theorem claim1_retry_candidate_ignores_proposed :
    ∀ tsInit : Nat,
      ClientPrepare ⟨5, [0, 2]⟩ [⟨.retry, 100⟩, ⟨.retry, 50⟩] ⟨60, 9⟩ 80 tsInit =
        .ok (⟨5, [0, 2]⟩, ⟨.retry, ⟨80, 9⟩, [.prepareReq 0 60, .prepareReq 2 60]⟩) := by
  intro tsInit
  have h := prepare_retry_result ⟨5, [0, 2]⟩ [⟨.retry, 100⟩, ⟨.retry, 50⟩] ⟨60, 9⟩ 80 tsInit
    (by decide) (by decide) ⟨⟨.retry, 100⟩, by simp, by decide⟩
  simpa [Timestamp.setTimestamp, prepFanout, Timestamp.getTimestamp] using h

/-- C2: Commit returns `true` iff every participant voted OK on the Prepare
round that terminated the retry loop (round index `attempts - 1`). -/
theorem claim2_commit_true_iff_final_round_all_ok (s : ClientState)
    (rounds : Nat → List Vote) (now0 : Nat) (nows tsInits : Nat → Nat)
    (cid bound : Nat) (si : Reply) (out : CommitOut) (hb : 0 < bound)
    (h : ClientCommit s rounds now0 nows tsInits cid bound si = .ok out) :
    out.success = true ↔ ∀ v ∈ rounds (out.attempts - 1), v.reply = .ok := by
  obtain ⟨st, ts', tIn, -, -, hprep, hiff⟩ :=
    clientCommit_ok_elim s rounds now0 nows tsInits cid bound si out h hb
  rw [hiff]
  exact prepRound_status_ok_iff s rounds nows tsInits (out.attempts - 1) tIn st ts' hprep

/-- Witness for C2 at a concrete run: two participants, a single all-OK
round, bound 3. -/
theorem claim2_witness :
    (⟨true, [Msg.commitReq 0, Msg.commitReq 2], 1⟩ : CommitOut).success = true ↔
      ∀ v ∈ [(⟨.ok, 0⟩ : Vote), ⟨.ok, 0⟩], v.reply = .ok :=
  claim2_commit_true_iff_final_round_all_ok ⟨5, [0, 2]⟩
    (fun _ => [⟨.ok, 0⟩, ⟨.ok, 0⟩]) 70 (fun _ => 80) (fun _ => 0) 9 3 .retry
    ⟨true, [Msg.commitReq 0, Msg.commitReq 2], 1⟩ (by decide) rfl

/-- C3: a FAIL vote in the round the retry loop reaches makes Prepare
return FAIL immediately (status FAIL, timestamp untouched, for any clock
reading and memory content), makes Commit return `false` after exactly that
attempt (no further Prepare rounds), and Abort is then sent to every
participant in the set. -/
theorem claim3_fail_vote_aborts_all (s : ClientState) (rounds : Nat → List Vote)
    (now0 : Nat) (nows tsInits : Nat → Nat) (cid bound : Nat) (si : Reply)
    (k : Nat) (hne : s.participants ≠ []) (hk : k < bound)
    (hprev : ∀ j, j < k →
      (∀ v ∈ rounds j, v.reply ≠ .fail) ∧ ∃ v ∈ rounds j, v.reply ≠ .ok)
    (hfail : ∃ v ∈ rounds k, v.reply = .fail) :
    (∀ (t : Timestamp) (now ti : Nat),
        ClientPrepare s (rounds k) t now ti =
          .ok (s, ⟨.fail, t, prepFanout s.participants t⟩)) ∧
      ClientCommit s rounds now0 nows tsInits cid bound si =
        .ok ⟨false, abortFanout s.participants, k + 1⟩ := by
  constructor
  · intro t now ti
    exact prepare_fail_result s (rounds k) t now ti hne hfail
  · obtain ⟨ts', hc⟩ := commitLoop_reaches_fail (prepRound s rounds nows tsInits)
      k 0 bound ⟨now0, cid⟩ hk
      (fun j t' hj => by
        obtain ⟨hnf, hnok⟩ := hprev j hj
        refine ⟨t'.setTimestamp (if 0 < nows j then nows j else 0), ?_⟩
        rw [Nat.zero_add]
        exact prepRound_retry s rounds nows tsInits j t' hne hnf hnok)
      (fun t' => by
        refine ⟨t', ?_⟩
        rw [Nat.zero_add]
        exact prepRound_fail s rounds nows tsInits k t' hne hfail)
    exact clientCommit_of_loop_not_ok s rounds now0 nows tsInits cid bound si
      .fail ts' (k + 1) (by decide) hc

/-- Witness for C3: round 0 is a RETRY round, round 1 contains a FAIL vote,
bound 3; Commit stops after 2 attempts and aborts both participants. -/
theorem claim3_witness :
    (∀ (t : Timestamp) (now ti : Nat),
        ClientPrepare ⟨5, [0, 2]⟩ [⟨.ok, 0⟩, ⟨.fail, 0⟩] t now ti =
          .ok (⟨5, [0, 2]⟩, ⟨.fail, t, prepFanout [0, 2] t⟩)) ∧
      ClientCommit ⟨5, [0, 2]⟩
          (fun j => if j = 0 then [⟨.retry, 100⟩, ⟨.ok, 0⟩] else [⟨.ok, 0⟩, ⟨.fail, 0⟩])
          70 (fun _ => 80) (fun _ => 0) 9 3 .retry =
        .ok ⟨false, abortFanout [0, 2], 2⟩ :=
  claim3_fail_vote_aborts_all ⟨5, [0, 2]⟩
    (fun j => if j = 0 then [⟨.retry, 100⟩, ⟨.ok, 0⟩] else [⟨.ok, 0⟩, ⟨.fail, 0⟩])
    70 (fun _ => 80) (fun _ => 0) 9 3 .retry 1 (by decide) (by decide)
    (fun j hj => by
      have hj0 : j = 0 := by omega
      subst hj0
      exact ⟨by decide, by decide⟩)
    (by decide)

/-- C4: after a Begin (which empties the participant set regardless of
prior state) and any sequence of Get/Put operations, the participant set
holds exactly the shards the router assigned to those operations; and every
request Prepare, Commit and Abort send is addressed to a shard of that set. -/
theorem claim4_participants_exact (kts : String → Nat → Nat) (nshards : Nat)
    (env : Nat → String × Reply) (s0 : ClientState) (ops : List Op) :
    (ClientBegin s0).participants = [] ∧
    (∀ i, i ∈ (runOps kts nshards env (ClientBegin s0) ops).1.participants ↔
        ∃ op ∈ ops, kts op.key nshards = i) ∧
    (∀ (votes : List Vote) (t : Timestamp) (now ti : Nat) (s' : ClientState)
        (out : PrepOut),
        ClientPrepare (runOps kts nshards env (ClientBegin s0) ops).1 votes t now ti =
          .ok (s', out) →
        ∀ m ∈ out.msgs,
          m.shard ∈ (runOps kts nshards env (ClientBegin s0) ops).1.participants) ∧
    (∀ (rounds : Nat → List Vote) (now0 : Nat) (nows tsInits : Nat → Nat)
        (cid bound : Nat) (si : Reply) (out : CommitOut),
        ClientCommit (runOps kts nshards env (ClientBegin s0) ops).1 rounds now0 nows
            tsInits cid bound si = .ok out →
        ∀ m ∈ out.msgs,
          m.shard ∈ (runOps kts nshards env (ClientBegin s0) ops).1.participants) ∧
    (∀ reply : Nat → Reply,
        ∀ m ∈ (ClientAbort (runOps kts nshards env (ClientBegin s0) ops).1 reply).1,
          m.shard ∈ (runOps kts nshards env (ClientBegin s0) ops).1.participants) := by
  refine ⟨rfl, ?_, ?_, ?_, ?_⟩
  · intro i
    rw [runOps_mem_participants]
    simp [ClientBegin]
  · intro votes t now ti s' out h m hm
    obtain ⟨-, hmsgs⟩ := prepare_shape _ votes t now ti s' out h
    rw [hmsgs] at hm
    exact prepFanout_shards _ t m hm
  · intro rounds now0 nows tsInits cid bound si out h m hm
    rcases clientCommit_msgs _ rounds now0 nows tsInits cid bound si out h with hc | hc
    · rw [hc] at hm
      exact commitFanout_shards _ m hm
    · rw [hc] at hm
      exact abortFanout_shards _ m hm
  · intro reply m hm
    exact abortFanout_shards _ m hm

/-- Witness for C4: 3 shards, router = key length mod shard count; the ops
touch shards 1, 0 and 2 (shard 1 twice via distinct keys is not needed);
the resulting participant list is `[1, 0, 2]`. -/
theorem claim4_witness :
    (runOps (fun k n => k.length % n) 3 (fun _ => ("", Reply.ok))
        (ClientBegin ⟨5, [7]⟩) [.getOp "a", .putOp "bbb" "v", .getOp "aa"]).1.participants =
      [1, 0, 2] ∧
    (∀ i, i ∈ (runOps (fun k n => k.length % n) 3 (fun _ => ("", Reply.ok))
        (ClientBegin ⟨5, [7]⟩)
        [.getOp "a", .putOp "bbb" "v", .getOp "aa"]).1.participants ↔
      ∃ op ∈ ([.getOp "a", .putOp "bbb" "v", .getOp "aa"] : List Op),
        op.key.length % 3 = i) :=
  ⟨rfl,
    (claim4_participants_exact (fun k n => k.length % n) 3 (fun _ => ("", Reply.ok))
      ⟨5, [7]⟩ [.getOp "a", .putOp "bbb" "v", .getOp "aa"]).2.1⟩

/-- C5: the Commit retry loop makes at most `COMMIT_RETRIES` (= `bound`)
Prepare attempts; and when every round times out on every shard, Commit
exhausts exactly `bound` attempts, sends Abort to all participants, and
returns `false` (no fatal failure). -/
theorem claim5_retry_bound (s : ClientState) (rounds : Nat → List Vote)
    (now0 : Nat) (nows tsInits : Nat → Nat) (cid bound : Nat) (si : Reply)
    (out : CommitOut) (hb : 0 < bound)
    (h : ClientCommit s rounds now0 nows tsInits cid bound si = .ok out) :
    out.attempts ≤ bound ∧
      ((s.participants ≠ [] ∧ ∀ k, rounds k ≠ [] ∧ ∀ v ∈ rounds k, v.reply = .timeout) →
        out = ⟨false, abortFanout s.participants, bound⟩) := by
  obtain ⟨st, ts', tIn, hle, -, -, -⟩ :=
    clientCommit_ok_elim s rounds now0 nows tsInits cid bound si out h hb
  refine ⟨hle, ?_⟩
  rintro ⟨hne, ht⟩
  obtain ⟨ts0, hc⟩ := commitLoop_all_retry (prepRound s rounds nows tsInits)
    (fun k t => by
      obtain ⟨hk, hall⟩ := ht k
      obtain ⟨v, hv⟩ := List.exists_mem_of_ne_nil (rounds k) hk
      refine ⟨t.setTimestamp (if 0 < nows k then nows k else 0), ?_⟩
      exact prepRound_retry s rounds nows tsInits k t hne
        (fun w hw => by rw [hall w hw]; decide)
        ⟨v, hv, by rw [hall v hv]; decide⟩)
    bound 0 ⟨now0, cid⟩ hb
  have hcommit := clientCommit_of_loop_not_ok s rounds now0 nows tsInits cid bound si
    .retry ts0 bound (by decide) hc
  rw [hcommit] at h
  exact (Except.ok.inj h).symm

/-- Witness for C5: Scenario D — both shards time out on all three
attempts, bound 3; Commit makes 3 attempts, aborts both shards, returns
false. -/
theorem claim5_witness :
    (⟨false, abortFanout [0, 2], 3⟩ : CommitOut).attempts ≤ 3 ∧
      (((⟨5, [0, 2]⟩ : ClientState).participants ≠ [] ∧
          ∀ k, (fun _ : Nat => [(⟨.timeout, 0⟩ : Vote), ⟨.timeout, 0⟩]) k ≠ [] ∧
            ∀ v ∈ (fun _ : Nat => [(⟨.timeout, 0⟩ : Vote), ⟨.timeout, 0⟩]) k,
              v.reply = .timeout) →
        (⟨false, abortFanout [0, 2], 3⟩ : CommitOut) =
          ⟨false, abortFanout [0, 2], 3⟩) :=
  claim5_retry_bound ⟨5, [0, 2]⟩ (fun _ => [⟨.timeout, 0⟩, ⟨.timeout, 0⟩]) 70
    (fun _ => 80) (fun _ => 0) 9 3 .retry ⟨false, abortFanout [0, 2], 3⟩
    (by decide) rfl

/-- C6: calling Commit with an empty participant set fails fatally — the
assertion in Prepare, which fires before any request is sent — and with at
least one participant neither Prepare nor Commit ever reaches the fatal
branch. -/
theorem claim6_empty_participants_fatal (s : ClientState) (rounds : Nat → List Vote)
    (now0 : Nat) (nows tsInits : Nat → Nat) (cid bound : Nat) (si : Reply)
    (hb : 0 < bound) :
    (s.participants = [] →
      (∀ (votes : List Vote) (t : Timestamp) (now ti : Nat),
          ClientPrepare s votes t now ti = .error ()) ∧
      ClientCommit s rounds now0 nows tsInits cid bound si = .error ()) ∧
    (s.participants ≠ [] →
      (∀ (votes : List Vote) (t : Timestamp) (now ti : Nat),
          ClientPrepare s votes t now ti ≠ .error ()) ∧
      ClientCommit s rounds now0 nows tsInits cid bound si ≠ .error ()) := by
  constructor
  · intro hnil
    refine ⟨fun votes t now ti => prepare_empty s votes t now ti hnil, ?_⟩
    have hp := prepRound_empty s rounds nows tsInits 0 ⟨now0, cid⟩ hnil
    have hloop : commitLoop (prepRound s rounds nows tsInits) 0 bound ⟨now0, cid⟩ =
        .error () := by
      obtain ⟨b, rfl⟩ : ∃ b, bound = b + 1 := ⟨bound - 1, by omega⟩
      simp [commitLoop, hp]
    exact clientCommit_of_loop_error s rounds now0 nows tsInits cid bound si () hloop
  · intro hne
    constructor
    · intro votes t now ti heq
      obtain ⟨o, ho⟩ := prepare_total s votes t now ti hne
      rw [ho] at heq
      exact Except.noConfusion heq
    · intro heq
      obtain ⟨o, ho⟩ := clientCommit_total s rounds now0 nows tsInits cid bound si hne
      rw [ho] at heq
      exact Except.noConfusion heq

/-- Witness for C6 at the empty participant set (Scenario E). -/
theorem claim6_witness :
    ((⟨5, []⟩ : ClientState).participants = [] →
      (∀ (votes : List Vote) (t : Timestamp) (now ti : Nat),
          ClientPrepare ⟨5, []⟩ votes t now ti = .error ()) ∧
      ClientCommit ⟨5, []⟩ (fun _ => []) 70 (fun _ => 80) (fun _ => 0) 9 3 .retry =
        .error ()) ∧
    ((⟨5, []⟩ : ClientState).participants ≠ [] →
      (∀ (votes : List Vote) (t : Timestamp) (now ti : Nat),
          ClientPrepare ⟨5, []⟩ votes t now ti ≠ .error ()) ∧
      ClientCommit ⟨5, []⟩ (fun _ => []) 70 (fun _ => 80) (fun _ => 0) 9 3 .retry ≠
        .error ()) :=
  claim6_empty_participants_fatal ⟨5, []⟩ (fun _ => []) 70 (fun _ => 80) (fun _ => 0)
    9 3 .retry (by decide)

/-- C7: a TIMEOUT vote makes the overall Prepare status RETRY whenever no
vote is FAIL — in particular a round of only OK and TIMEOUT votes returns
RETRY, never FAIL. -/
theorem claim7_timeout_folds_to_retry (s : ClientState) (votes : List Vote)
    (t : Timestamp) (now ti : Nat) (hne : s.participants ≠ [])
    (hnf : ∀ v ∈ votes, v.reply ≠ .fail) (hto : ∃ v ∈ votes, v.reply = .timeout) :
    ClientPrepare s votes t now ti =
      .ok (s, ⟨.retry, t.setTimestamp (if 0 < now then now else 0),
        prepFanout s.participants t⟩) := by
  refine prepare_retry_result s votes t now ti hne hnf ?_
  obtain ⟨v, hv, hvt⟩ := hto
  exact ⟨v, hv, by rw [hvt]; decide⟩

/-- Witness for C7: one OK vote and one TIMEOUT vote, clock 80. -/
theorem claim7_witness :
    ClientPrepare ⟨5, [0, 2]⟩ [⟨.ok, 0⟩, ⟨.timeout, 0⟩] ⟨60, 9⟩ 80 0 =
      .ok (⟨5, [0, 2]⟩, ⟨.retry, ⟨80, 9⟩, [.prepareReq 0 60, .prepareReq 2 60]⟩) :=
  claim7_timeout_folds_to_retry ⟨5, [0, 2]⟩ [⟨.ok, 0⟩, ⟨.timeout, 0⟩] ⟨60, 9⟩ 80 0
    (by decide) (by decide) (by decide)

/-- C8: Abort sends an Abort request to every participant shard, and the
second loop consumes (waits for) the reply — or its timeout — of every one
of those promises before returning, one per participant in order. -/
theorem claim8_abort_contacts_and_waits_all (s : ClientState) (reply : Nat → Reply) :
    (ClientAbort s reply).1 = abortFanout s.participants ∧
    (∀ p ∈ s.participants, Msg.abortReq p ∈ (ClientAbort s reply).1) ∧
    (ClientAbort s reply).2 = s.participants.map reply := by
  refine ⟨rfl, ?_, ?_⟩
  · intro p hp
    simp only [ClientAbort, abortFanout]
    exact List.mem_map_of_mem Msg.abortReq hp
  · simp [ClientAbort]

/-- Witness for C8 at a concrete participant set, with shards resolving to
TIMEOUT (a reply is still awaited from each). -/
theorem claim8_witness :
    (ClientAbort ⟨5, [0, 2]⟩ (fun _ => Reply.timeout)).1 = abortFanout [0, 2] ∧
    (∀ p ∈ [0, 2], Msg.abortReq p ∈ (ClientAbort ⟨5, [0, 2]⟩ (fun _ => Reply.timeout)).1) ∧
    (ClientAbort ⟨5, [0, 2]⟩ (fun _ => Reply.timeout)).2 =
      [0, 2].map (fun _ => Reply.timeout) :=
  claim8_abort_contacts_and_waits_all ⟨5, [0, 2]⟩ (fun _ => Reply.timeout)

/-- C9: a Prepare round in which every participant voted OK returns OK and
leaves the in/out timestamp argument exactly as it was passed in. -/
theorem claim9_ok_round_keeps_timestamp (s : ClientState) (votes : List Vote)
    (t : Timestamp) (now ti : Nat) (hne : s.participants ≠ [])
    (hok : ∀ v ∈ votes, v.reply = .ok) :
    ClientPrepare s votes t now ti =
      .ok (s, ⟨.ok, t, prepFanout s.participants t⟩) :=
  prepare_all_ok s votes t now ti hne hok

/-- Witness for C9: two OK votes; the timestamp 60 comes back unchanged. -/
theorem claim9_witness :
    ClientPrepare ⟨5, [0, 2]⟩ [⟨.ok, 11⟩, ⟨.ok, 22⟩] ⟨60, 9⟩ 80 0 =
      .ok (⟨5, [0, 2]⟩, ⟨.ok, ⟨60, 9⟩, [.prepareReq 0 60, .prepareReq 2 60]⟩) :=
  claim9_ok_round_keeps_timestamp ⟨5, [0, 2]⟩ [⟨.ok, 11⟩, ⟨.ok, 22⟩] ⟨60, 9⟩ 80 0
    (by decide) (by decide)

/-- C10: a Prepare round containing a FAIL vote returns FAIL through the
early return: the in/out timestamp argument, the participant set and the
transaction id are all returned exactly as they were (the returned state is
the input state itself, and the timestamp is the input timestamp). -/
theorem claim10_fail_return_frame (s : ClientState) (votes : List Vote)
    (t : Timestamp) (now ti : Nat) (hne : s.participants ≠ [])
    (hf : ∃ v ∈ votes, v.reply = .fail) :
    ClientPrepare s votes t now ti =
      .ok (s, ⟨.fail, t, prepFanout s.participants t⟩) :=
  prepare_fail_result s votes t now ti hne hf

/-- Witness for C10: a RETRY vote proposing 100 followed by a FAIL vote;
the result is FAIL with timestamp 60 and state `⟨5, [0, 2]⟩` unchanged. -/
theorem claim10_witness :
    ClientPrepare ⟨5, [0, 2]⟩ [⟨.retry, 100⟩, ⟨.fail, 0⟩] ⟨60, 9⟩ 80 0 =
      .ok (⟨5, [0, 2]⟩, ⟨.fail, ⟨60, 9⟩, [.prepareReq 0 60, .prepareReq 2 60]⟩) :=
  claim10_fail_return_frame ⟨5, [0, 2]⟩ [⟨.retry, 100⟩, ⟨.fail, 0⟩] ⟨60, 9⟩ 80 0
    (by decide) (by decide)

end Tapir
